import Mathlib

/-!
Verification development for the Themisto coloring layer.

The definitions below are a shallow embedding of the color-set data
structures of the repository: the hybrid bitmap/array `Color_Set` and its
view, the concatenated `Color_Set_Storage`, the `Coloring` facade with its
tagged serialization, the core-k-mer walk of `get_color_set_id`, and the
metadata color streams used at build time.

Machine integers (`int64_t`) are modelled as `Nat`: every quantity involved
(colors, lengths, offsets, identifiers) is nonnegative in the source and far
from the 2^63 overflow boundary in any reachable state, so no wrap-around
arithmetic is modelled.  `sdsl::bit_vector` is modelled as `List Bool` and
`sdsl::int_vector<>` as `List Nat` (the sdsl bit-packing preserves the
stored values, which is all the verified properties depend on).
-/

namespace Themisto

/-- The `std::variant<bit_vector*, int_vector<>*>` data pointer held by both
`Color_Set` and `Color_Set_View`.  Variant index 0 is the bitmap, index 1 the
integer array, as in the source. -/
inductive ColorDataPtr where
  | bitmapPtr (data : List Bool)
  | arrayPtr (data : List Nat)
  deriving Repr, DecidableEq

/-- Common shape of `Color_Set` (owning, `start = 0` when built from a
vector) and `Color_Set_View` (non-owning window into a concatenation).
The two C++ classes have identical observable fields `(data_ptr, start,
length)`; the template member functions below are written once over this
shape exactly like the `colorset_*` template functions in the source. -/
structure Color_Set where
  data_ptr : ColorDataPtr
  start : Nat
  length : Nat
  deriving Repr, DecidableEq

/-- `colorset_is_bitmap`: variant index 0 means bitmap. -/
def colorset_is_bitmap (cs : Color_Set) : Bool :=
  match cs.data_ptr with
  | .bitmapPtr _ => true
  | .arrayPtr _ => false

/-- `colorset_access_bitmap`: `(*std::get<0>(cs.data_ptr))[cs.start + idx]`. -/
def colorset_access_bitmap (cs : Color_Set) (idx : Nat) : Bool :=
  match cs.data_ptr with
  | .bitmapPtr data => data.getD (cs.start + idx) false
  | .arrayPtr _ => false

/-- `colorset_access_array`: `(*std::get<1>(cs.data_ptr))[cs.start + idx]`. -/
def colorset_access_array (cs : Color_Set) (idx : Nat) : Nat :=
  match cs.data_ptr with
  | .bitmapPtr _ => 0
  | .arrayPtr data => data.getD (cs.start + idx) 0

/-- `colorset_contains`: bitmap branch guards `color >= cs.length` and
returns `false` there, otherwise reads the bit; array branch is the linear
scan over the `cs.length` elements of the window. -/
def colorset_contains (cs : Color_Set) (color : Nat) : Bool :=
  if colorset_is_bitmap cs then
    if cs.length ≤ color then false
    else colorset_access_bitmap cs color
  else
    (List.range cs.length).any (fun i => colorset_access_array cs i == color)

/-- `colorset_get_colors_as_vector`: bitmap branch pushes every index with a
set bit, array branch pushes the stored elements in order. -/
def colorset_get_colors_as_vector (cs : Color_Set) : List Nat :=
  if colorset_is_bitmap cs then
    (List.range cs.length).filter (fun i => colorset_access_bitmap cs i)
  else
    (List.range cs.length).map (fun i => colorset_access_array cs i)

/-- `*std::max_element(set.begin(), set.end())` for a nonempty list of
nonnegative integers (the source never calls it on an empty vector; on the
empty list this total model returns 0). -/
def natMax (l : List Nat) : Nat := l.foldl max 0

/-- The representation-choice test `log2(max_element) * set.size() >
max_element` of the source, over the exact reals: for `m ≥ 1`,
`log2(m) * s > m  ↔  m ^ s > 2 ^ m` (take `2 ^ ·` of both sides), and for
`m = 0` both the C expression (`log2(0) = -inf`) and `0 ^ s > 1` are false.
`true` means the dense bitmap representation is chosen. -/
def chooses_bitmap (size maxElement : Nat) : Bool :=
  decide (2 ^ maxElement < maxElement ^ size)

/-- The bitmap built by `Color_Set(const vector<int64_t>&)` and `add_set`:
`vector<bool> bitmap(max_element+1, 0); for x in set: bitmap[x] = 1`. -/
def set_to_bitmap (set : List Nat) (maxElement : Nat) : List Bool :=
  (List.range (maxElement + 1)).map (fun i => set.contains i)

/-- `Color_Set(const vector<int64_t>& set)`: choose bitmap when the cutoff
test fires, otherwise store the vector itself; `start` is 0 and `length` is
the bitmap bit-count resp. the element count. -/
def Color_Set.ofVector (set : List Nat) : Color_Set :=
  let m := natMax set
  if chooses_bitmap set.length m then
    { data_ptr := .bitmapPtr (set_to_bitmap set m), start := 0,
      length := m + 1 }
  else
    { data_ptr := .arrayPtr set, start := 0, length := set.length }

/-- Modelled from the spec: `bitmap_vs_bitmap_intersection` (only declared
in the header in the repository; the spec says "bitwise AND of the two
bitmap spans; result length = min of lengths").  The C++ writes the result
in place into `A` and returns the new length; bits past the returned length
are never read afterwards (both `contains` and `get_colors_as_vector` are
bounded by `length`), so the result is modelled as the meaningful prefix
together with the returned length. -/
def bitmap_vs_bitmap_intersection (A : List Bool) (Asize : Nat)
    (B : List Bool) (Bstart Bsize : Nat) : List Bool × Nat :=
  let n := min Asize Bsize
  ((List.range n).map (fun i => A.getD i false && B.getD (Bstart + i) false), n)

/-- Modelled from the spec: `array_vs_bitmap_intersection` (only declared in
the header; the spec says "iterate the array, retain each element x iff
x < bitmap-length and bit x is set. Result remains array").  As above, the
in-place result buffer is modelled as the retained prefix plus its
length. -/
def array_vs_bitmap_intersection (iv : List Nat) (ivSize : Nat)
    (bv : List Bool) (bvStart bvSize : Nat) : List Nat × Nat :=
  let res := (iv.take ivSize).filter
    (fun x => decide (x < bvSize) && bv.getD (bvStart + x) false)
  (res, res.length)

/-- Two-pointer merge of two sorted duplicate-free sequences, keeping the
common elements. -/
def intersect_sorted : List Nat → List Nat → List Nat
  | [], _ => []
  | _ :: _, [] => []
  | a :: as_, b :: bs =>
    if a = b then a :: intersect_sorted as_ bs
    else if a < b then intersect_sorted as_ (b :: bs)
    else intersect_sorted (a :: as_) bs
  termination_by l1 l2 => l1.length + l2.length

/-- Modelled from the spec: `array_vs_array_intersection` (only declared in
the header; the spec says "linear merge of two sorted sequences", and the
header comments require sorted, distinct buffers).  In-place result buffer
modelled as the merged prefix plus its length. -/
def array_vs_array_intersection (A : List Nat) (Alen : Nat)
    (B : List Nat) (Bstart Blen : Nat) : List Nat × Nat :=
  let res := intersect_sorted (A.take Alen) ((B.drop Bstart).take Blen)
  (res, res.length)

/-- `Color_Set::intersection(const Color_Set_View& other)`: the four-way
dispatch of the source.  Note that in the bitmap-vs-array branch the source
copies `other`'s whole underlying `int_vector` from index 0 (`iv_copy`) and
intersects its first `other.length` elements against `this`'s bitmap span
`[this->start, this->start + this->length)`; the model reproduces exactly
that, including the fact that `other.start` is not used in this branch. -/
def Color_Set.intersection (self other : Color_Set) : Color_Set :=
  match self.data_ptr, other.data_ptr with
  | .bitmapPtr A, .bitmapPtr B =>
    let r := bitmap_vs_bitmap_intersection A self.length B other.start other.length
    { data_ptr := .bitmapPtr r.1, start := self.start, length := r.2 }
  | .arrayPtr A, .bitmapPtr B =>
    let r := array_vs_bitmap_intersection A self.length B other.start other.length
    { data_ptr := .arrayPtr r.1, start := self.start, length := r.2 }
  | .bitmapPtr A, .arrayPtr B =>
    let r := array_vs_bitmap_intersection B other.length A self.start self.length
    { data_ptr := .arrayPtr r.1, start := self.start, length := r.2 }
  | .arrayPtr A, .arrayPtr B =>
    let r := array_vs_array_intersection A self.length B other.start other.length
    { data_ptr := .arrayPtr r.1, start := self.start, length := r.2 }

/-! ### Color_Set_Storage (the `Color_Set` template specialization) -/

/-- The transient construction buffers of
`Color_Set_Storage<Color_Set, Color_Set_View>` (the `temp_*` members). -/
structure Storage_Build where
  temp_bitmap_concat : List Bool
  temp_arrays_concat : List Nat
  temp_bitmap_starts : List Nat
  temp_arrays_starts : List Nat
  temp_is_bitmap_marks : List Bool
  deriving Repr, DecidableEq

/-- The empty storage under construction (default-constructed object). -/
def Storage_Build.empty : Storage_Build := ⟨[], [], [], [], []⟩

/-- `Color_Set_Storage::add_set(const vector<int64_t>& set)`: same cutoff
test as the `Color_Set` constructor; pushes the discriminator mark, records
the start of the new block (the current concatenation size), then appends
the block (the bitmap of the set, resp. the set itself). -/
def add_set (st : Storage_Build) (set : List Nat) : Storage_Build :=
  let m := natMax set
  if chooses_bitmap set.length m then
    { st with
      temp_is_bitmap_marks := st.temp_is_bitmap_marks ++ [true],
      temp_bitmap_starts := st.temp_bitmap_starts ++ [st.temp_bitmap_concat.length],
      temp_bitmap_concat := st.temp_bitmap_concat ++ set_to_bitmap set m }
  else
    { st with
      temp_is_bitmap_marks := st.temp_is_bitmap_marks ++ [false],
      temp_arrays_starts := st.temp_arrays_starts ++ [st.temp_arrays_concat.length],
      temp_arrays_concat := st.temp_arrays_concat ++ set }

/-- The frozen `Color_Set_Storage` after `prepare_for_queries`:
the five persistent members (`is_bitmap_marks_rs` is recomputed from
`is_bitmap_marks` by `rank1` below, as `sdsl::util::init_support` does). -/
structure Color_Set_Storage where
  bitmap_concat : List Bool
  bitmap_starts : List Nat
  arrays_concat : List Nat
  arrays_starts : List Nat
  is_bitmap_marks : List Bool
  deriving Repr, DecidableEq

/-- `Color_Set_Storage::prepare_for_queries`: append the sentinel start (one
past the end) to both start arrays and freeze all buffers. -/
def prepare_for_queries (st : Storage_Build) : Color_Set_Storage :=
  { bitmap_concat := st.temp_bitmap_concat,
    bitmap_starts := st.temp_bitmap_starts ++ [st.temp_bitmap_concat.length],
    arrays_concat := st.temp_arrays_concat,
    arrays_starts := st.temp_arrays_starts ++ [st.temp_arrays_concat.length],
    is_bitmap_marks := st.temp_is_bitmap_marks }

/-- `add_set` over a whole sequence of sets followed by
`prepare_for_queries` (the storage build protocol, also the
`Color_Set_Storage(const vector<Color_Set>&)` constructor path). -/
def build_storage (vs : List (List Nat)) : Color_Set_Storage :=
  prepare_for_queries (vs.foldl add_set Storage_Build.empty)

/-- `sdsl::rank_support_v5<>::rank(i)`: number of set bits strictly before
position `i`. -/
def rank1 (bits : List Bool) (i : Nat) : Nat :=
  ((bits.take i).filter (fun b => b)).length

/-- `Color_Set_Storage::get_color_set_by_id(int64_t id)`: discriminate on
`is_bitmap_marks[id]`; a bitmap set is the view over `bitmap_concat`
starting at `bitmap_starts[rank(id)]` of length `bitmap_starts[rank(id)+1] -
bitmap_starts[rank(id)]`, an array set is the corresponding window of
`arrays_concat` indexed by `id - rank(id)`. -/
def get_color_set_by_id (s : Color_Set_Storage) (id : Nat) : Color_Set :=
  if s.is_bitmap_marks.getD id false then
    let j := rank1 s.is_bitmap_marks id
    let st := s.bitmap_starts.getD j 0
    let en := s.bitmap_starts.getD (j + 1) 0
    { data_ptr := .bitmapPtr s.bitmap_concat, start := st, length := en - st }
  else
    let j := id - rank1 s.is_bitmap_marks id
    let st := s.arrays_starts.getD j 0
    let en := s.arrays_starts.getD (j + 1) 0
    { data_ptr := .arrayPtr s.arrays_concat, start := st, length := en - st }

/-- `Color_Set_Storage::number_of_sets_stored`. -/
def number_of_sets_stored (s : Color_Set_Storage) : Nat :=
  s.is_bitmap_marks.length

/-! ### Node-to-color-set map and the Coloring facade -/

/-- Modelled from the spec: `Sparse_Uint_Array` (its header is not part of
the sources; §4.3 of the spec describes it as a presence bitvector plus a
packed array of values for the present positions, with rank support). -/
structure Sparse_Uint_Array where
  present : List Bool
  values : List Nat
  deriving Repr, DecidableEq

/-- Modelled from the spec: `Sparse_Uint_Array::has_index(node)` is the
presence bit of the node. -/
def sua_has (m : Sparse_Uint_Array) (node : Nat) : Bool :=
  m.present.getD node false

/-- Modelled from the spec: `Sparse_Uint_Array::get(node) =
values[rank1(present, node)]`. -/
def sua_get (m : Sparse_Uint_Array) (node : Nat) : Nat :=
  m.values.getD (rank1 m.present node) 0

/-- The `Coloring` facade specialized to the sdsl-hybrid color set (the
repository's default template arguments): the color-set storage, the sparse
node-to-color-set-id map and the two statistics fields.  The non-owning
`index_ptr` to the external SBWT is not state of the archive and is passed
separately where needed. -/
structure Coloring where
  sets : Color_Set_Storage
  node_id_to_color_set_id : Sparse_Uint_Array
  largest_color_id : Nat
  total_color_set_length : Nat
  deriving Repr, DecidableEq

/-- `Coloring::largest_color()`. -/
def Coloring.largest_color (c : Coloring) : Nat := c.largest_color_id

/-- `Coloring::number_of_distinct_color_sets()` =
`sets.number_of_sets_stored()`. -/
def Coloring.number_of_distinct_color_sets (c : Coloring) : Nat :=
  number_of_sets_stored c.sets

/-- `Coloring::sum_of_all_distinct_color_set_lengths()`. -/
def Coloring.sum_of_all_distinct_color_set_lengths (c : Coloring) : Nat :=
  c.total_color_set_length

/-- `Coloring::get_color_set_as_vector_by_color_set_id`. -/
def Coloring.get_color_set_as_vector_by_color_set_id (c : Coloring) (id : Nat) :
    List Nat :=
  colorset_get_colors_as_vector (get_color_set_by_id c.sets id)

/-! ### Serialization

The sdsl component serializers are external to the repository; a serialized
archive is modelled as a stream of typed tokens, one per serialized
component, in exactly the order the source emits them.  The byte encoding
inside one component is owned by sdsl and not modelled. -/

/-- One serialized component of an archive. -/
inductive Token where
  | bitVec (bits : List Bool)
  | intVec (vals : List Nat)
  | rankSupport (bits : List Bool)
  | str (s : String)
  | int64 (n : Nat)
  deriving Repr, DecidableEq

/-- `Color_Set_Storage::serialize`: bitmap concat, bitmap starts, arrays
concat, arrays starts, discriminator marks, rank support — in this order. -/
def serialize_storage (s : Color_Set_Storage) : List Token :=
  [.bitVec s.bitmap_concat, .intVec s.bitmap_starts,
   .intVec s.arrays_concat, .intVec s.arrays_starts,
   .bitVec s.is_bitmap_marks, .rankSupport s.is_bitmap_marks]

/-- `Color_Set_Storage::load`: reads the six components in the same order;
the rank support is re-attached to the loaded `is_bitmap_marks` (in this
model rank is always recomputed from the marks, so the token is only
consumed). -/
def load_storage : List Token → Option (Color_Set_Storage × List Token)
  | .bitVec bc :: .intVec bs :: .intVec ac :: .intVec as_ ::
      .bitVec marks :: .rankSupport _ :: rest =>
    some (⟨bc, bs, ac, as_, marks⟩, rest)
  | _ => none

/-- Modelled from the spec: serialization of `Sparse_Uint_Array`
(§6 archive format: presence bits, their rank support, then the values). -/
def serialize_sua (m : Sparse_Uint_Array) : List Token :=
  [.bitVec m.present, .rankSupport m.present, .intVec m.values]

/-- Modelled from the spec: `Sparse_Uint_Array::load`, inverse of
`serialize_sua`. -/
def load_sua : List Token → Option (Sparse_Uint_Array × List Token)
  | .bitVec p :: .rankSupport _ :: .intVec v :: rest => some (⟨p, v⟩, rest)
  | _ => none

/-- The three type tags known to `Coloring::serialize` / `Coloring::load`. -/
def sdslTag : String := "sdsl-hybrid-v4"

/-- The roaring variant tag. -/
def roaringTag : String := "roaring-v0"

/-- The bitmagic variant tag. -/
def bitmagicTag : String := "bitmagic-v0"

/-- `Coloring::serialize`: the type tag determined by the class template
parameter (passed here as `tag`), then the storage, the node map and the two
statistics integers.  The payload of the non-sdsl variants is external
(roaring / bitmagic libraries); it is modelled with the same token shape,
which is faithful for everything the verified claims depend on (the tag
dispatch and the sdsl round trip). -/
def serialize_coloring (tag : String) (c : Coloring) : List Token :=
  .str tag :: (serialize_storage c.sets ++ serialize_sua c.node_id_to_color_set_id
    ++ [.int64 c.largest_color_id, .int64 c.total_color_set_length])

/-- The outcomes of loading a coloring archive. -/
inductive LoadError where
  /-- `WrongTemplateParameterException`: known tag, wrong template. -/
  | wrongTemplate
  /-- `runtime_error("Unknown color set type:" + type_id)`. -/
  | unknownType (tag : String)
  /-- A stream read failed (malformed archive). -/
  | badData
  /-- `runtime_error("Error: could not load color structure.")` at the end
  of `load_coloring`. -/
  | couldNotLoad
  deriving Repr, DecidableEq

/-- The tag check at the top of `Coloring::load`: each known tag throws
`WrongTemplateParameterException` unless it matches the loader's template
parameter (`expected`); an unknown tag throws a `runtime_error`. -/
def coloring_tag_check (expected tag : String) : Except LoadError Unit :=
  if tag = sdslTag then
    if expected ≠ sdslTag then .error .wrongTemplate else .ok ()
  else if tag = roaringTag then
    if expected ≠ roaringTag then .error .wrongTemplate else .ok ()
  else if tag = bitmagicTag then
    if expected ≠ bitmagicTag then .error .wrongTemplate else .ok ()
  else .error (.unknownType tag)

/-- `Coloring::load` for the loader class whose template parameter has tag
`expected`: read the tag string, run the tag check, then load the storage,
the node map and the two statistics integers. -/
def load_coloring_tagged (expected : String) :
    List Token → Except LoadError (Coloring × List Token)
  | .str tag :: rest =>
    match coloring_tag_check expected tag with
    | .error e => .error e
    | .ok _ =>
      match load_storage rest with
      | none => .error .badData
      | some (sets, rest) =>
        match load_sua rest with
        | none => .error .badData
        | some (m, rest) =>
          match rest with
          | .int64 lc :: .int64 tl :: rest => .ok (⟨sets, m, lc, tl⟩, rest)
          | _ => .error .badData
  | _ => .error .badData

/-- `load_coloring` (coloring.cpp): try the sdsl-hybrid loader, catch only
`WrongTemplateParameterException` and fall through to the roaring loader,
then to the bitmagic loader; if all three threw the wrong-template
exception, fail with "could not load color structure".  Any other exception
(in particular the unknown-tag `runtime_error`) propagates. -/
def load_coloring (tokens : List Token) :
    Except LoadError (String × Coloring) :=
  match load_coloring_tagged sdslTag tokens with
  | .ok (c, _) => .ok (sdslTag, c)
  | .error .wrongTemplate =>
    match load_coloring_tagged roaringTag tokens with
    | .ok (c, _) => .ok (roaringTag, c)
    | .error .wrongTemplate =>
      match load_coloring_tagged bitmagicTag tokens with
      | .ok (c, _) => .ok (bitmagicTag, c)
      | .error .wrongTemplate => .error .couldNotLoad
      | .error e => .error e
    | .error e => .error e
  | .error e => .error e

/-! ### The core-k-mer walk of `Coloring::get_color_set_id` -/

/-- The surface of the external SBWT used by `get_color_set_id`: the four
alphabet indicator bit vectors with their rank structures
(`subset_struct.X_bits` / `subset_struct.rank(node, X)`) and the C array. -/
structure SBWT_Index where
  A_bits : Nat → Bool
  C_bits : Nat → Bool
  G_bits : Nat → Bool
  T_bits : Nat → Bool
  rankA : Nat → Nat
  rankC : Nat → Nat
  rankG : Nat → Nat
  rankT : Nat → Nat
  C_array : Fin 4 → Nat

/-- One iteration of the loop body of `get_color_set_id`: probe the four
indicator bits in order A, C, G, T and apply the forward-edge formula
`C_array[X] + rank(node, X)` of the first set bit; `none` models the
`runtime_error("BUG: dead end in get_color_set_id")` branch. -/
def step_node (S : SBWT_Index) (node : Nat) : Option Nat :=
  if S.A_bits node then some (S.C_array 0 + S.rankA node)
  else if S.C_bits node then some (S.C_array 1 + S.rankC node)
  else if S.G_bits node then some (S.C_array 2 + S.rankG node)
  else if S.T_bits node then some (S.C_array 3 + S.rankT node)
  else none

/-- Result of the `get_color_set_id` loop. -/
inductive WalkResult where
  /-- Loop exited at a core k-mer; carries `node_id_to_color_set_id.get`. -/
  | ok (id : Nat)
  /-- `runtime_error("BUG: dead end in get_color_set_id")`. -/
  | deadEnd
  /-- Fuel exhausted (the C++ loop would still be running). -/
  | outOfFuel
  deriving Repr, DecidableEq

/-- `Coloring::get_color_set_id`, fuelled: while the node is not a core
k-mer (`is_core_kmer(node) = node_id_to_color_set_id.has_index(node)`),
follow the unique out-edge; at a core k-mer return the stored id. -/
def get_color_set_id_aux (S : SBWT_Index) (M : Sparse_Uint_Array) :
    Nat → Nat → WalkResult
  | 0, _ => .outOfFuel
  | fuel + 1, node =>
    if sua_has M node then .ok (sua_get M node)
    else
      match step_node S node with
      | some nxt => get_color_set_id_aux S M fuel nxt
      | none => .deadEnd

/-- `j`-fold iteration of the out-edge formula (`none` once a dead end is
hit); the walk that the claim about `get_color_set_id` quantifies over. -/
def iter_step (S : SBWT_Index) : Nat → Nat → Option Nat
  | 0, node => some node
  | j + 1, node =>
    match step_node S node with
    | some nxt => iter_step S j nxt
    | none => none

/-! ### Metadata color streams (build_index_main.cpp) -/

/-- State of `Unique_For_Each_Sequence_Color_Stream`: the current color `x`,
the `reverse_complements` mode flag and the `increment_flag`. -/
structure UFES_Stream where
  x : Nat
  reverse_complements : Bool
  increment_flag : Bool
  deriving Repr, DecidableEq

/-- `Unique_For_Each_Sequence_Color_Stream(bool reverse_complements)`:
starts at color 0 with the increment flag down. -/
def UFES_Stream.init (rc : Bool) : UFES_Stream := ⟨0, rc, false⟩

/-- `Unique_For_Each_Sequence_Color_Stream::next`: return the current color;
increment it unless reverse complements are on and the flag is down; toggle
the flag. -/
def UFES_Stream.next (s : UFES_Stream) : Nat × UFES_Stream :=
  (s.x,
   { s with
     x := if !s.reverse_complements || s.increment_flag then s.x + 1 else s.x,
     increment_flag := !s.increment_flag })

/-- The state of the stream after `k` calls to `next`. -/
def UFES_Stream.stateAfter (s : UFES_Stream) : Nat → UFES_Stream
  | 0 => s
  | k + 1 => (UFES_Stream.stateAfter s k).next.2

/-- The value returned by the `k`-th call to `next` (0-based). -/
def UFES_Stream.output (s : UFES_Stream) (k : Nat) : Nat :=
  (s.stateAfter k).next.1

/-- State of `Colorfile_Stream`, with the color files flattened to the list
of integers parsed from their remaining lines (the `getline` loop walks the
files in order, so only the concatenation of lines is observable):
`remaining` lines, last parsed color `x`, the mode flag and `rc_flag`. -/
structure Colorfile_Stream where
  remaining : List Nat
  x : Nat
  reverse_complements : Bool
  rc_flag : Bool
  deriving Repr, DecidableEq

/-- A fresh `Colorfile_Stream` over color files whose parsed lines
concatenate to `colors` (`x` is uninitialized in the source; it is never
returned before being assigned, so 0 is a harmless stand-in). -/
def Colorfile_Stream.init (colors : List Nat) (rc : Bool) : Colorfile_Stream :=
  ⟨colors, 0, rc, false⟩

/-- `Colorfile_Stream::next`: when reverse complements are on and `rc_flag`
is up, re-return the previous color; otherwise parse the next line (running
out of lines throws "Error: more colors than sequences.", modelled as
`none`).  The flag toggles on every call. -/
def Colorfile_Stream.next (s : Colorfile_Stream) :
    Option (Nat × Colorfile_Stream) :=
  if s.reverse_complements && s.rc_flag then
    some (s.x, { s with rc_flag := !s.rc_flag })
  else
    match s.remaining with
    | [] => none
    | c :: rest =>
      some (c, { s with remaining := rest, x := c, rc_flag := !s.rc_flag })

/-- The value returned by the `k`-th call to `next` (0-based), `none` if any
of the first `k+1` calls ran out of colors. -/
def Colorfile_Stream.output (s : Colorfile_Stream) : Nat → Option Nat
  | 0 => (s.next).map Prod.fst
  | k + 1 =>
    match s.next with
    | none => none
    | some (_, s') => Colorfile_Stream.output s' k

/-! ### Derived descriptions of the storage layout, used to state and prove
the storage claims. -/

/-- Whether `add_set` / `Color_Set.ofVector` picks the bitmap
representation for this vector. -/
def is_bitmap_set (v : List Nat) : Bool := chooses_bitmap v.length (natMax v)

/-- The block that `add_set` appends for a bitmap-typed set. -/
def block_of (v : List Nat) : List Bool := set_to_bitmap v (natMax v)

/-- The bitmap blocks of a sequence of added sets, in insertion order. -/
def bitmap_blocks (vs : List (List Nat)) : List (List Bool) :=
  (vs.filter is_bitmap_set).map block_of

/-- The array blocks of a sequence of added sets, in insertion order. -/
def array_blocks (vs : List (List Nat)) : List (List Nat) :=
  vs.filter (fun v => !is_bitmap_set v)

/-- The start offsets recorded for consecutive blocks of the given lengths,
with the first block starting at `base`. -/
def startsFrom (base : Nat) : List Nat → List Nat
  | [] => []
  | l :: ls => base :: startsFrom (base + l) ls

/-- A three-node SBWT used to exercise the core-k-mer walk on a concrete
input: node 0 has an A-edge to node 1, node 1 has a C-edge to node 2 and
node 2 is a core k-mer. -/
def walkExampleIndex : SBWT_Index where
  A_bits := fun n => n == 0
  C_bits := fun n => n == 1
  G_bits := fun _ => false
  T_bits := fun _ => false
  rankA := fun _ => 0
  rankC := fun n => if n == 1 then 1 else 0
  rankG := fun _ => 0
  rankT := fun _ => 0
  C_array := fun i => if i.val == 0 then 1 else if i.val == 1 then 1 else 3

/-- The node-to-color-set map for `walkExampleIndex`: only node 2 is core,
with color-set id 5. -/
def walkExampleMap : Sparse_Uint_Array where
  present := [false, false, true]
  values := [5]

/-- A small concrete Coloring used to exercise the serialization claims. -/
def exampleColoring : Coloring :=
  { sets := build_storage [[0, 1, 2], [4]],
    node_id_to_color_set_id := ⟨[true, false, true], [0, 1]⟩,
    largest_color_id := 4,
    total_color_set_length := 4 }

/-! ## Theorems -/

/-! ### Helper lemmas about the representation choice -/

/-- `Color_Set.ofVector` is a bitmap exactly when the cutoff test fires. -/
theorem is_bitmap_ofVector (v : List Nat) :
    colorset_is_bitmap (Color_Set.ofVector v)
      = chooses_bitmap v.length (natMax v) := by
  unfold Color_Set.ofVector
  by_cases h : chooses_bitmap v.length (natMax v) <;>
    simp [h, colorset_is_bitmap]

/-- C10: on any bitmap-represented color set, `contains` hits the
out-of-range guard for every color at or beyond the bitmap length and
returns `false` (rather than reading out of bounds); together with the
array branch's bounded linear scan, `contains` is total on all nonnegative
colors. -/
theorem colorset_contains_out_of_range (cs : Color_Set) (c : Nat)
    (hb : colorset_is_bitmap cs = true) (hc : cs.length ≤ c) :
    colorset_contains cs c = false := by
  simp [colorset_contains, hb, hc]

/-- Witness for `colorset_contains_out_of_range`: the set {0,1,2} is stored
as a bitmap of length 3 and `contains 5` is `false`. -/
theorem colorset_contains_out_of_range_witness :
    colorset_is_bitmap (Color_Set.ofVector [0, 1, 2]) = true
    ∧ (Color_Set.ofVector [0, 1, 2]).length ≤ 5
    ∧ colorset_contains (Color_Set.ofVector [0, 1, 2]) 5 = false :=
  ⟨by decide, by decide,
   colorset_contains_out_of_range (Color_Set.ofVector [0, 1, 2]) 5
     (by decide) (by decide)⟩

/-- C2 counterexample: for V = [0,1] (maximum element m = 1) the spec's
cutoff `⌈log₂(m+1)⌉ · |V| ≥ m+1` reads `1·2 ≥ 2` and predicts a bitmap,
but the code's test `log2(m) · |V| > m` reads `0·2 > 1` and chooses the
array representation. -/
theorem representation_choice_counterexample :
    ¬ (colorset_is_bitmap (Color_Set.ofVector [0, 1]) = true ↔
        natMax [0, 1] + 1 ≤ Nat.clog 2 (natMax [0, 1] + 1) * List.length [0, 1]) := by
  have hclog : Nat.clog 2 (natMax [0, 1] + 1) = 1 :=
    Nat.clog_eq_one le_rfl le_rfl
  have hbm : colorset_is_bitmap (Color_Set.ofVector [0, 1]) = false := rfl
  rw [hbm, hclog]
  simp [natMax]

/-- C2 as amended: the `Color_Set` vector constructor and
`Color_Set_Storage::add_set` choose the bitmap representation iff
`m ^ |V| > 2 ^ m` where `m` is the maximum element — the exact meaning of
the source's test `log2(m) · |V| > m` — not iff
`⌈log₂(m+1)⌉ · |V| ≥ m+1`. -/
theorem representation_choice_amended (v : List Nat) (st : Storage_Build)
    (hv : v ≠ []) :
    (colorset_is_bitmap (Color_Set.ofVector v) = true ↔
      2 ^ natMax v < natMax v ^ v.length)
    ∧ (add_set st v).temp_is_bitmap_marks
        = st.temp_is_bitmap_marks ++ [decide (2 ^ natMax v < natMax v ^ v.length)] := by
  constructor
  · rw [is_bitmap_ofVector]
    unfold chooses_bitmap
    exact decide_eq_true_iff
  · unfold add_set chooses_bitmap
    by_cases h : decide (2 ^ natMax v < natMax v ^ v.length) <;> simp [h]

/-- Witness for `representation_choice_amended` at V = [0,1,2]:
m = 2, 2^2 = 4 < 2^3 = 8, so the constructor picks a bitmap and `add_set`
pushes a set mark. -/
theorem representation_choice_amended_witness :
    [0, 1, 2] ≠ ([] : List Nat)
    ∧ (colorset_is_bitmap (Color_Set.ofVector [0, 1, 2]) = true ↔
        2 ^ natMax [0, 1, 2] < natMax [0, 1, 2] ^ List.length [0, 1, 2])
    ∧ (add_set Storage_Build.empty [0, 1, 2]).temp_is_bitmap_marks
        = Storage_Build.empty.temp_is_bitmap_marks
          ++ [decide (2 ^ natMax [0, 1, 2] < natMax [0, 1, 2] ^ List.length [0, 1, 2])] :=
  ⟨by decide,
   (representation_choice_amended [0, 1, 2] Storage_Build.empty (by decide)).1,
   (representation_choice_amended [0, 1, 2] Storage_Build.empty (by decide)).2⟩

/-! ### Serialization and the variant-open loader -/

/-- Loading a serialized coloring with a given expected tag reduces to the
tag check: on a matching tag the whole archive is recovered with nothing
left over, and a tag-check failure is surfaced unchanged. -/
theorem load_tagged_serialize (expected t : String) (c : Coloring) :
    load_coloring_tagged expected (serialize_coloring t c) =
      match coloring_tag_check expected t with
      | .ok _ => .ok (c, [])
      | .error e => .error e := by
  cases h : coloring_tag_check expected t <;>
    simp [load_coloring_tagged, serialize_coloring, serialize_storage,
      serialize_sua, load_storage, load_sua, h]

/-- C4: serializing a Coloring (with the sdsl-hybrid tag of the
`Color_Set` template parameter) and loading the bytes back with the same
template parameter consumes the whole archive and yields a Coloring on
which every public accessor agrees with the original. -/
theorem coloring_serialize_load_roundtrip (c : Coloring) :
    ∃ c2 : Coloring,
      load_coloring_tagged sdslTag (serialize_coloring sdslTag c) = .ok (c2, [])
      ∧ c2.number_of_distinct_color_sets = c.number_of_distinct_color_sets
      ∧ c2.largest_color = c.largest_color
      ∧ c2.sum_of_all_distinct_color_set_lengths
          = c.sum_of_all_distinct_color_set_lengths
      ∧ ∀ id, c2.get_color_set_as_vector_by_color_set_id id
            = c.get_color_set_as_vector_by_color_set_id id := by
  refine ⟨c, ?_, rfl, rfl, rfl, fun _ => rfl⟩
  rw [load_tagged_serialize]
  rfl

/-- C5: the variant-open load reads the archive's type tag; a known tag
that does not match the loader's template parameter raises the catchable
wrong-variant failure, which `load_coloring` catches to try the next
variant (so an archive with any known tag loads as that variant); a tag
matching none of the known tags makes loading fail with the unknown-type
error, in the single loader and in `load_coloring`. -/
theorem variant_open_load (c : Coloring) (e t badTag : String)
    (he : e = sdslTag ∨ e = roaringTag ∨ e = bitmagicTag)
    (ht : t = sdslTag ∨ t = roaringTag ∨ t = bitmagicTag)
    (hne : e ≠ t)
    (hbad : badTag ≠ sdslTag ∧ badTag ≠ roaringTag ∧ badTag ≠ bitmagicTag) :
    load_coloring_tagged e (serialize_coloring t c) = .error .wrongTemplate
    ∧ load_coloring (serialize_coloring t c) = .ok (t, c)
    ∧ (∀ rest, load_coloring_tagged e (Token.str badTag :: rest)
        = .error (.unknownType badTag))
    ∧ load_coloring (serialize_coloring badTag c) = .error (.unknownType badTag) := by
  obtain ⟨hb1, hb2, hb3⟩ := hbad
  have hbadcheck : ∀ x, coloring_tag_check x badTag = .error (.unknownType badTag) := by
    intro x
    simp [coloring_tag_check, hb1, hb2, hb3]
  refine ⟨?_, ?_, ?_, ?_⟩
  · rw [load_tagged_serialize]
    rcases he with rfl | rfl | rfl <;> rcases ht with rfl | rfl | rfl <;>
      first
        | exact absurd rfl hne
        | rfl
  · unfold load_coloring
    rcases ht with rfl | rfl | rfl <;>
      simp [load_tagged_serialize, coloring_tag_check, sdslTag, roaringTag, bitmagicTag]
  · intro rest
    simp [load_coloring_tagged, hbadcheck]
  · unfold load_coloring
    simp [load_tagged_serialize, hbadcheck]

/-- Witness for `variant_open_load`: a roaring-tagged archive makes the
sdsl-hybrid loader throw the wrong-variant failure and `load_coloring`
recover it as the roaring variant, while the unknown tag "foo-v9" fails. -/
theorem variant_open_load_witness :
    load_coloring_tagged sdslTag (serialize_coloring roaringTag exampleColoring)
      = .error .wrongTemplate
    ∧ load_coloring (serialize_coloring roaringTag exampleColoring)
      = .ok (roaringTag, exampleColoring)
    ∧ (∀ rest, load_coloring_tagged sdslTag (Token.str "foo-v9" :: rest)
        = .error (.unknownType "foo-v9"))
    ∧ load_coloring (serialize_coloring "foo-v9" exampleColoring)
      = .error (.unknownType "foo-v9") :=
  variant_open_load exampleColoring sdslTag roaringTag "foo-v9"
    (Or.inl rfl) (Or.inr (Or.inl rfl)) (by decide) ⟨by decide, by decide, by decide⟩

/-! ### The core-k-mer walk -/

/-- C6: `get_color_set_id` returns the stored color-set id of the node
itself when the node-to-color-set map has an entry for it (the `j = 0` case
below), and otherwise returns the id stored at the first core k-mer reached
by repeatedly following the unique out-edge `C_array[X] + rank(node, X)`;
it raises the fatal dead-end error iff the walk instead reaches a node with
no out-edges before any core k-mer (both outcomes proved here for every
walk that decides within the given fuel). -/
theorem get_color_set_id_walk (S : SBWT_Index) (M : Sparse_Uint_Array)
    (fuel j node m : Nat)
    (hiter : iter_step S j node = some m)
    (hnoncore : ∀ i x, i < j → iter_step S i node = some x → sua_has M x = false)
    (hfuel : j < fuel) :
    (sua_has M m = true →
      get_color_set_id_aux S M fuel node = .ok (sua_get M m))
    ∧ (sua_has M m = false → step_node S m = none →
      get_color_set_id_aux S M fuel node = .deadEnd) := by
  induction j generalizing node fuel with
  | zero =>
    obtain ⟨f, rfl⟩ : ∃ f, fuel = f + 1 := ⟨fuel - 1, by omega⟩
    simp only [iter_step, Option.some.injEq] at hiter
    subst hiter
    constructor
    · intro h
      simp [get_color_set_id_aux, h]
    · intro h hst
      simp [get_color_set_id_aux, h, hst]
  | succ j ih =>
    obtain ⟨f, rfl⟩ : ∃ f, fuel = f + 1 := ⟨fuel - 1, by omega⟩
    have h0 : sua_has M node = false := hnoncore 0 node (by omega) rfl
    cases hstep : step_node S node with
    | none =>
      rw [iter_step, hstep] at hiter
      exact absurd hiter (by simp)
    | some nxt =>
      simp only [iter_step, hstep] at hiter
      have hnc : ∀ i x, i < j → iter_step S i nxt = some x → sua_has M x = false := by
        intro i x hi hx
        refine hnoncore (i + 1) x (by omega) ?_
        simp only [iter_step, hstep]
        exact hx
      have hrec := ih f nxt hiter hnc (by omega)
      constructor
      · intro h
        rw [get_color_set_id_aux]
        simp only [h0, Bool.false_eq_true, if_false, hstep]
        exact hrec.1 h
      · intro h hst
        rw [get_color_set_id_aux]
        simp only [h0, Bool.false_eq_true, if_false, hstep]
        exact hrec.2 h hst

/-- Witness for `get_color_set_id_walk`: in the three-node example, the
walk from the non-core node 0 follows the A-edge to node 1, the C-edge to
the core node 2, and returns its stored id 5. -/
theorem get_color_set_id_walk_witness :
    get_color_set_id_aux walkExampleIndex walkExampleMap 3 0 = .ok 5 := by
  have h := get_color_set_id_walk walkExampleIndex walkExampleMap 3 2 0 2
    (by rfl) ?_ (by omega)
  · exact h.1 (by rfl)
  · intro i x hi hx
    interval_cases i
    · simp only [iter_step, Option.some.injEq] at hx
      subst hx
      rfl
    · simp only [iter_step, step_node, walkExampleIndex] at hx
      simp at hx
      subst hx
      rfl

/-! ### Metadata color streams -/

/-- With reverse complements, the per-sequence stream is in state
`(n, flag down)` after every even number `2n` of calls. -/
theorem ufes_state_rc (n : Nat) :
    (UFES_Stream.init true).stateAfter (2 * n) = ⟨n, true, false⟩ := by
  induction n with
  | zero => rfl
  | succ n ih =>
    have e : 2 * (n + 1) = 2 * n + 1 + 1 := by ring
    rw [e]
    simp only [UFES_Stream.stateAfter, ih]
    rfl

/-- Without reverse complements, the per-sequence stream's color counter
equals the number of calls made. -/
theorem ufes_state_norc (n : Nat) :
    ((UFES_Stream.init false).stateAfter n).x = n
    ∧ ((UFES_Stream.init false).stateAfter n).reverse_complements = false := by
  induction n with
  | zero => exact ⟨rfl, rfl⟩
  | succ n ih =>
    obtain ⟨h1, h2⟩ := ih
    simp only [UFES_Stream.stateAfter]
    constructor
    · simp [UFES_Stream.next, h2, h1]
    · simp [UFES_Stream.next, h2]

/-- `Colorfile_Stream.output` steps through `next`. -/
theorem cf_output_succ (s : Colorfile_Stream) (v : Nat) (s2 : Colorfile_Stream)
    (k : Nat) (h : s.next = some (v, s2)) :
    s.output (k + 1) = s2.output k := by
  simp [Colorfile_Stream.output, h]

/-- With reverse complements, the colorfile stream emits the n-th parsed
color at both call 2n and call 2n+1, for any state with the flag down. -/
theorem cf_output_rc (n : Nat) : ∀ (colors : List Nat) (x : Nat),
    n < colors.length →
    (Colorfile_Stream.mk colors x true false).output (2 * n)
      = some (colors.getD n 0)
    ∧ (Colorfile_Stream.mk colors x true false).output (2 * n + 1)
      = some (colors.getD n 0) := by
  induction n with
  | zero =>
    intro colors x h
    match colors, h with
    | c :: rest, _ => exact ⟨rfl, rfl⟩
  | succ n ih =>
    intro colors x h
    match colors, h with
    | c :: rest, h =>
      have h2 : n < rest.length := by
        simpa using Nat.lt_of_succ_lt_succ h
      have hn1 : (Colorfile_Stream.mk (c :: rest) x true false).next
          = some (c, Colorfile_Stream.mk rest c true true) := rfl
      have hn2 : (Colorfile_Stream.mk rest c true true).next
          = some (c, Colorfile_Stream.mk rest c true false) := rfl
      have e1 : 2 * (n + 1) = 2 * n + 1 + 1 := by ring
      have e2 : 2 * (n + 1) + 1 = 2 * n + 1 + 1 + 1 := by ring
      constructor
      · rw [e1, cf_output_succ _ _ _ _ hn1, cf_output_succ _ _ _ _ hn2]
        simpa using (ih rest c h2).1
      · rw [e2, cf_output_succ _ _ _ _ hn1, cf_output_succ _ _ _ _ hn2]
        simpa using (ih rest c h2).2

/-- Without reverse complements, the colorfile stream emits the n-th parsed
color at call n, for any state. -/
theorem cf_output_norc (n : Nat) : ∀ (colors : List Nat) (x : Nat) (f : Bool),
    n < colors.length →
    (Colorfile_Stream.mk colors x false f).output n = some (colors.getD n 0) := by
  induction n with
  | zero =>
    intro colors x f h
    match colors, h with
    | c :: rest, _ => rfl
  | succ n ih =>
    intro colors x f h
    match colors, h with
    | c :: rest, h =>
      have h2 : n < rest.length := by
        simpa using Nat.lt_of_succ_lt_succ h
      have hn : (Colorfile_Stream.mk (c :: rest) x false f).next
          = some (c, Colorfile_Stream.mk rest c false (!f)) := rfl
      rw [cf_output_succ _ _ _ _ hn]
      simpa using ih rest c (!f) h2

/-- C9: with reverse complements enabled, both metadata color streams yield
each color twice in consecutive positions — the 2n-th and (2n+1)-th calls
to `Unique_For_Each_Sequence_Color_Stream::next` both return n, and
`Colorfile_Stream` returns the n-th color parsed from the color files at
both the 2n-th and the (2n+1)-th call — while with reverse complements
disabled each stream yields each color exactly once, at its own position. -/
theorem color_streams_duplicate_for_reverse_complements
    (n : Nat) (colors : List Nat) (h : n < colors.length) :
    (UFES_Stream.init true).output (2 * n) = n
    ∧ (UFES_Stream.init true).output (2 * n + 1) = n
    ∧ (UFES_Stream.init false).output n = n
    ∧ (Colorfile_Stream.init colors true).output (2 * n)
        = some (colors.getD n 0)
    ∧ (Colorfile_Stream.init colors true).output (2 * n + 1)
        = some (colors.getD n 0)
    ∧ (Colorfile_Stream.init colors false).output n
        = some (colors.getD n 0) := by
  refine ⟨?_, ?_, ?_, (cf_output_rc n colors 0 h).1,
    (cf_output_rc n colors 0 h).2, cf_output_norc n colors 0 false h⟩
  · rw [UFES_Stream.output, ufes_state_rc]
    rfl
  · rw [UFES_Stream.output, UFES_Stream.stateAfter, ufes_state_rc]
    rfl
  · exact (ufes_state_norc n).1

/-- Witness for `color_streams_duplicate_for_reverse_complements` at n = 1
over the parsed color files [7, 9]. -/
theorem color_streams_duplicate_witness :
    (UFES_Stream.init true).output 2 = 1
    ∧ (UFES_Stream.init true).output 3 = 1
    ∧ (UFES_Stream.init false).output 1 = 1
    ∧ (Colorfile_Stream.init [7, 9] true).output 2 = some 9
    ∧ (Colorfile_Stream.init [7, 9] true).output 3 = some 9
    ∧ (Colorfile_Stream.init [7, 9] false).output 1 = some 9 :=
  color_streams_duplicate_for_reverse_complements 1 [7, 9] (by decide)

/-! ### Storage layout helper lemmas -/

/-- The seed of `foldl max` is a lower bound of the result. -/
theorem foldl_max_init_le (l : List Nat) : ∀ b, b ≤ l.foldl max b := by
  induction l with
  | nil => intro b; simp
  | cons a t ih =>
    intro b
    exact le_trans (le_max_left b a) (ih (max b a))

/-- Every member of a list is bounded by its `foldl max`. -/
theorem le_foldl_max (l : List Nat) : ∀ b x, x ∈ l → x ≤ l.foldl max b := by
  induction l with
  | nil => intro b x hx; simp at hx
  | cons a t ih =>
    intro b x hx
    rcases List.mem_cons.mp hx with rfl | hx
    · exact le_trans (le_max_right b x) (foldl_max_init_le t _)
    · exact ih _ x hx

/-- Every member of a list is at most `natMax` of the list. -/
theorem le_natMax {l : List Nat} {x : Nat} (hx : x ∈ l) : x ≤ natMax l :=
  le_foldl_max l 0 x hx

/-- The bitmap built for a set has one bit per value in `[0, max]`. -/
theorem length_set_to_bitmap (v : List Nat) (m : Nat) :
    (set_to_bitmap v m).length = m + 1 := by
  simp [set_to_bitmap]

/-- Bit `c` of the bitmap built for a set records membership of `c`. -/
theorem getD_set_to_bitmap (v : List Nat) (m c : Nat) (hc : c < m + 1) :
    (set_to_bitmap v m).getD c false = v.contains c := by
  rw [List.getD_eq_getElem _ _ (by simpa [set_to_bitmap] using hc)]
  simp [set_to_bitmap]

/-- `startsFrom` records one start per block. -/
theorem startsFrom_length (ls : List Nat) : ∀ base,
    (startsFrom base ls).length = ls.length := by
  induction ls with
  | nil => intro base; rfl
  | cons l t ih => intro base; simp [startsFrom, ih]

/-- The `j`-th start recorded by `startsFrom` is the base plus the total
length of the first `j` blocks. -/
theorem startsFrom_getD (ls : List Nat) : ∀ (base j : Nat), j < ls.length →
    (startsFrom base ls).getD j 0 = base + (ls.take j).sum := by
  induction ls with
  | nil => intro base j h; simp at h
  | cons l t ih =>
    intro base j h
    cases j with
    | zero => simp [startsFrom]
    | succ j =>
      rw [startsFrom, List.getD_cons_succ,
        ih (base + l) j (by simpa using Nat.lt_of_succ_lt_succ h)]
      simp [Nat.add_assoc]

/-- Every entry of a `startsFrom` list with its sentinel is at least the
base offset. -/
theorem startsFrom_mem_ge (ls : List Nat) : ∀ base x,
    x ∈ startsFrom base ls ++ [base + ls.sum] → base ≤ x := by
  induction ls with
  | nil =>
    intro base x hx
    simp [startsFrom] at hx
    omega
  | cons l t ih =>
    intro base x hx
    have hcons : startsFrom base (l :: t) ++ [base + (l :: t).sum]
        = base :: (startsFrom (base + l) t ++ [base + l + t.sum]) := by
      simp [startsFrom, Nat.add_assoc]
    rw [hcons] at hx
    rcases List.mem_cons.mp hx with rfl | hx
    · exact le_rfl
    · exact le_trans (Nat.le_add_right base l) (ih (base + l) x hx)

/-- When every block is nonempty, the start offsets together with the
sentinel are strictly increasing. -/
theorem startsFrom_sorted (ls : List Nat) : ∀ base, (∀ l ∈ ls, 0 < l) →
    List.Sorted (· < ·) (startsFrom base ls ++ [base + ls.sum]) := by
  induction ls with
  | nil =>
    intro base h
    simp [startsFrom]
  | cons l t ih =>
    intro base h
    have hcons : startsFrom base (l :: t) ++ [base + (l :: t).sum]
        = base :: (startsFrom (base + l) t ++ [base + l + t.sum]) := by
      simp [startsFrom, Nat.add_assoc]
    rw [hcons, List.sorted_cons]
    refine ⟨fun b hb => ?_, ih (base + l) (fun x hx => h x (by simp [hx]))⟩
    have hge := startsFrom_mem_ge t (base + l) b hb
    have hl : 0 < l := h l (by simp)
    omega

/-- Slicing the flattened blocks at the accumulated start offset of block
`j` for its length recovers block `j`. -/
theorem flatten_slice {α : Type} (bs : List (List α)) : ∀ j, j < bs.length →
    (bs.flatten.drop (((bs.map List.length).take j).sum)).take (bs.getD j []).length
      = bs.getD j [] := by
  induction bs with
  | nil => intro j h; simp at h
  | cons b t ih =>
    intro j h
    cases j with
    | zero =>
      simpa using List.take_left b t.flatten
    | succ j =>
      have h2 : j < t.length := by simpa using Nat.lt_of_succ_lt_succ h
      calc ((b :: t).flatten.drop ((((b :: t).map List.length).take (j + 1)).sum)).take
              ((b :: t).getD (j + 1) []).length
          = ((b ++ t.flatten).drop (b.length + ((t.map List.length).take j).sum)).take
              (t.getD j []).length := by
            simp [List.getD_cons_succ]
        _ = (t.flatten.drop (((t.map List.length).take j).sum)).take (t.getD j []).length := by
            rw [List.drop_append]
        _ = t.getD j [] := ih j h2
        _ = (b :: t).getD (j + 1) [] := (List.getD_cons_succ ..).symm

/-- Indexing a filtered list at the number of earlier matches recovers the
original element, provided that element matches. -/
theorem filter_getD_take (p : α → Bool) (d : α) :
    ∀ (l : List α) (i : Nat), i < l.length → p (l.getD i d) = true →
      (l.filter p).getD ((l.take i).filter p).length d = l.getD i d
      ∧ ((l.take i).filter p).length < (l.filter p).length := by
  intro l
  induction l with
  | nil => intro i h; simp at h
  | cons a t ih =>
    intro i hi hp
    cases i with
    | zero =>
      have hpa : p a = true := hp
      simp [List.filter_cons, hpa]
    | succ i =>
      have h2 : i < t.length := by simpa using Nat.lt_of_succ_lt_succ hi
      have hp2 : p (t.getD i d) = true := by
        simpa [List.getD_cons_succ] using hp
      obtain ⟨ih1, ih2⟩ := ih i h2 hp2
      by_cases hpa : p a = true
      · refine ⟨?_, ?_⟩
        · simpa [List.take_succ_cons, List.filter_cons, hpa, List.getD_cons_succ,
            Nat.add_comm 1] using ih1
        · simpa [List.take_succ_cons, List.filter_cons, hpa] using ih2
      · have hpa' : p a = false := by simpa using hpa
        refine ⟨?_, ?_⟩
        · simpa [List.take_succ_cons, List.filter_cons, hpa', List.getD_cons_succ] using ih1
        · simpa [List.take_succ_cons, List.filter_cons, hpa'] using ih2

/-- `rank1` over the discriminator marks counts the bitmap-typed sets among
the first `i` added sets. -/
theorem rank1_map_marks (vs : List (List Nat)) (i : Nat) :
    rank1 (vs.map is_bitmap_set) i = ((vs.take i).filter is_bitmap_set).length := by
  unfold rank1
  rw [← List.map_take, ← List.countP_eq_length_filter, ← List.countP_eq_length_filter,
    List.countP_map]
  rfl

/-- `id - rank1(id)` counts the array-typed sets among the first `i` added
sets. -/
theorem sub_rank1_map_marks (vs : List (List Nat)) (i : Nat) (hi : i ≤ vs.length) :
    i - rank1 (vs.map is_bitmap_set) i
      = ((vs.take i).filter (fun v => !is_bitmap_set v)).length := by
  rw [rank1_map_marks]
  have hlen : (vs.take i).length = i := by
    simp [Nat.min_eq_left hi]
  have := List.length_eq_length_filter_add (l := vs.take i) is_bitmap_set
  omega

/-- The discriminator mark of set `i` is the representation chosen for the
`i`-th added vector. -/
theorem marks_getD (vs : List (List Nat)) (i : Nat) (hi : i < vs.length) :
    (vs.map is_bitmap_set).getD i false = is_bitmap_set (vs.getD i []) := by
  rw [List.getD_eq_getElem _ _ (by simpa using hi), List.getD_eq_getElem _ _ hi,
    List.getElem_map]

/-- Closed form of the construction-time state after adding a sequence of
sets: the two concatenations are the flattened blocks, the start arrays are
the accumulated block offsets and the marks record the representation
choices, each appended to the initial state. -/
theorem foldl_add_set (vs : List (List Nat)) : ∀ st : Storage_Build,
    vs.foldl add_set st = {
      temp_bitmap_concat := st.temp_bitmap_concat ++ (bitmap_blocks vs).flatten,
      temp_arrays_concat := st.temp_arrays_concat ++ (array_blocks vs).flatten,
      temp_bitmap_starts := st.temp_bitmap_starts
        ++ startsFrom st.temp_bitmap_concat.length ((bitmap_blocks vs).map List.length),
      temp_arrays_starts := st.temp_arrays_starts
        ++ startsFrom st.temp_arrays_concat.length ((array_blocks vs).map List.length),
      temp_is_bitmap_marks := st.temp_is_bitmap_marks ++ vs.map is_bitmap_set } := by
  induction vs with
  | nil =>
    intro st
    simp [bitmap_blocks, array_blocks, startsFrom]
  | cons v t ih =>
    intro st
    rw [List.foldl_cons]
    by_cases h : is_bitmap_set v
    · have hadd : add_set st v = {
          temp_bitmap_concat := st.temp_bitmap_concat ++ block_of v,
          temp_arrays_concat := st.temp_arrays_concat,
          temp_bitmap_starts := st.temp_bitmap_starts ++ [st.temp_bitmap_concat.length],
          temp_arrays_starts := st.temp_arrays_starts,
          temp_is_bitmap_marks := st.temp_is_bitmap_marks ++ [true] } := by
        simp only [add_set]
        rw [show chooses_bitmap v.length (natMax v) = true from h]
        rfl
      have hb : bitmap_blocks (v :: t) = block_of v :: bitmap_blocks t := by
        simp [bitmap_blocks, List.filter_cons, h]
      have ha : array_blocks (v :: t) = array_blocks t := by
        simp [array_blocks, List.filter_cons, h]
      rw [hadd, ih, hb, ha]
      simp [startsFrom, List.append_assoc, h, length_set_to_bitmap, block_of]
    · have h' : chooses_bitmap v.length (natMax v) = false := by
        simpa [is_bitmap_set] using h
      have hadd : add_set st v = {
          temp_bitmap_concat := st.temp_bitmap_concat,
          temp_arrays_concat := st.temp_arrays_concat ++ v,
          temp_bitmap_starts := st.temp_bitmap_starts,
          temp_arrays_starts := st.temp_arrays_starts ++ [st.temp_arrays_concat.length],
          temp_is_bitmap_marks := st.temp_is_bitmap_marks ++ [false] } := by
        simp only [add_set]
        rw [h']
        rfl
      have hb : bitmap_blocks (v :: t) = bitmap_blocks t := by
        simp [bitmap_blocks, List.filter_cons, h]
      have ha : array_blocks (v :: t) = v :: array_blocks t := by
        simp [array_blocks, List.filter_cons, h]
      rw [hadd, ih, hb, ha]
      simp [startsFrom, List.append_assoc, is_bitmap_set, h']

/-- Closed form of the storage produced by the add-then-prepare protocol. -/
theorem build_storage_eq (vs : List (List Nat)) :
    build_storage vs = {
      bitmap_concat := (bitmap_blocks vs).flatten,
      bitmap_starts := startsFrom 0 ((bitmap_blocks vs).map List.length)
        ++ [((bitmap_blocks vs).map List.length).sum],
      arrays_concat := (array_blocks vs).flatten,
      arrays_starts := startsFrom 0 ((array_blocks vs).map List.length)
        ++ [((array_blocks vs).map List.length).sum],
      is_bitmap_marks := vs.map is_bitmap_set } := by
  unfold build_storage prepare_for_queries
  rw [foldl_add_set]
  simp [Storage_Build.empty, List.length_flatten]

/-- The start array with its sentinel, read at any position up to the block
count, yields the accumulated length of the blocks before that position. -/
theorem fullStarts_getD (L : List Nat) (j : Nat) (hj : j ≤ L.length) :
    (startsFrom 0 L ++ [L.sum]).getD j 0 = (L.take j).sum := by
  rcases Nat.lt_or_ge j L.length with h | h
  · rw [List.getD_append _ _ _ _ (by rw [startsFrom_length]; exact h),
      startsFrom_getD L 0 j h]
    omega
  · have hj' : j = L.length := le_antisymm hj h
    subst hj'
    rw [List.getD_append_right _ _ _ _ (le_of_eq (startsFrom_length L 0))]
    simp [startsFrom_length]

/-- Reading the flattened blocks at an in-block offset of block `j` reads
that block. -/
theorem flatten_getD_slice {α : Type} (bs : List (List α)) (j : Nat)
    (hj : j < bs.length) (d : α) :
    ∀ c, c < (bs.getD j []).length →
      bs.flatten.getD (((bs.map List.length).take j).sum + c) d
        = (bs.getD j []).getD c d := by
  intro c hc
  have hslice := flatten_slice bs j hj
  have hlen : ((bs.flatten.drop (((bs.map List.length).take j).sum)).take
      (bs.getD j []).length).length = (bs.getD j []).length := by
    rw [hslice]
  have hdlen : (bs.getD j []).length
      ≤ (bs.flatten.drop (((bs.map List.length).take j).sum)).length := by
    rw [List.length_take] at hlen
    omega
  have hcd : c < (bs.flatten.drop (((bs.map List.length).take j).sum)).length :=
    lt_of_lt_of_le hc hdlen
  have hflat : ((bs.map List.length).take j).sum + c < bs.flatten.length := by
    rw [List.length_drop] at hcd
    omega
  have hc2 : c < ((bs.flatten.drop (((bs.map List.length).take j).sum)).take
      (bs.getD j []).length).length := by
    rw [hlen]
    exact hc
  calc bs.flatten.getD (((bs.map List.length).take j).sum + c) d
      = bs.flatten[((bs.map List.length).take j).sum + c] :=
        List.getD_eq_getElem _ _ hflat
    _ = (bs.flatten.drop (((bs.map List.length).take j).sum))[c] :=
        (List.getElem_drop _).symm
    _ = ((bs.flatten.drop (((bs.map List.length).take j).sum)).take
          (bs.getD j []).length)[c] := (List.getElem_take _).symm
    _ = (bs.getD j []).getD c d := by
        rw [← List.getD_eq_getElem _ d hc2, hslice]

/-- For a bitmap-typed set `i`, `get_color_set_by_id` on the built storage
is the view into the flattened bitmap blocks at the accumulated offset of
its block, of length `max + 1`; the corresponding block is the bitmap of
the `i`-th added vector. -/
theorem get_built_bitmap (vs : List (List Nat)) (i : Nat) (hi : i < vs.length)
    (h : is_bitmap_set (vs.getD i []) = true) :
    get_color_set_by_id (build_storage vs) i
      = { data_ptr := .bitmapPtr (bitmap_blocks vs).flatten,
          start := (((bitmap_blocks vs).map List.length).take
            ((vs.take i).filter is_bitmap_set).length).sum,
          length := natMax (vs.getD i []) + 1 }
    ∧ (bitmap_blocks vs).getD ((vs.take i).filter is_bitmap_set).length []
        = block_of (vs.getD i [])
    ∧ ((vs.take i).filter is_bitmap_set).length < (bitmap_blocks vs).length := by
  obtain ⟨hfj, hjlt⟩ := filter_getD_take is_bitmap_set [] vs i hi h
  have hblen : (bitmap_blocks vs).length = (vs.filter is_bitmap_set).length := by
    simp [bitmap_blocks]
  have hjlt' : ((vs.take i).filter is_bitmap_set).length < (bitmap_blocks vs).length := by
    rw [hblen]; exact hjlt
  have hblock : (bitmap_blocks vs).getD ((vs.take i).filter is_bitmap_set).length []
      = block_of (vs.getD i []) := by
    rw [List.getD_eq_getElem _ _ hjlt']
    simp only [bitmap_blocks, List.getElem_map]
    rw [← List.getD_eq_getElem _ [] hjlt, hfj]
  have hmark : ((vs.map is_bitmap_set).getD i false) = true := by
    rw [marks_getD vs i hi]; exact h
  have hL : ((bitmap_blocks vs).map List.length).length = (bitmap_blocks vs).length := by
    simp
  have hst : (startsFrom 0 ((bitmap_blocks vs).map List.length)
        ++ [((bitmap_blocks vs).map List.length).sum]).getD
          ((vs.take i).filter is_bitmap_set).length 0
      = (((bitmap_blocks vs).map List.length).take
          ((vs.take i).filter is_bitmap_set).length).sum :=
    fullStarts_getD _ _ (by rw [hL]; exact le_of_lt hjlt')
  have hen : (startsFrom 0 ((bitmap_blocks vs).map List.length)
        ++ [((bitmap_blocks vs).map List.length).sum]).getD
          (((vs.take i).filter is_bitmap_set).length + 1) 0
      = (((bitmap_blocks vs).map List.length).take
          ((vs.take i).filter is_bitmap_set).length).sum
        + (natMax (vs.getD i []) + 1) := by
    rw [fullStarts_getD _ _ (by rw [hL]; omega)]
    rw [List.sum_take_succ _ _ (by rw [hL]; exact hjlt')]
    congr 1
    rw [List.getElem_map]
    rw [← List.getD_eq_getElem _ [] hjlt', hblock]
    simp [block_of, length_set_to_bitmap]
  refine ⟨?_, hblock, hjlt'⟩
  rw [build_storage_eq]
  simp only [get_color_set_by_id, hmark, if_true]
  rw [rank1_map_marks, hst, hen]
  simp

/-- For an array-typed set `i`, `get_color_set_by_id` on the built storage
is the view into the flattened array blocks at the accumulated offset of
its block, of the vector's length; the corresponding block is the `i`-th
added vector itself. -/
theorem get_built_array (vs : List (List Nat)) (i : Nat) (hi : i < vs.length)
    (h : is_bitmap_set (vs.getD i []) = false) :
    get_color_set_by_id (build_storage vs) i
      = { data_ptr := .arrayPtr (array_blocks vs).flatten,
          start := (((array_blocks vs).map List.length).take
            ((vs.take i).filter (fun v => !is_bitmap_set v)).length).sum,
          length := (vs.getD i []).length }
    ∧ (array_blocks vs).getD
          ((vs.take i).filter (fun v => !is_bitmap_set v)).length []
        = vs.getD i []
    ∧ ((vs.take i).filter (fun v => !is_bitmap_set v)).length
        < (array_blocks vs).length := by
  have hp : (fun v => !is_bitmap_set v) (vs.getD i []) = true := by
    simp only [h, Bool.not_false]
  obtain ⟨hfj, hjlt⟩ := filter_getD_take (fun v => !is_bitmap_set v) [] vs i hi hp
  have hblen : (array_blocks vs).length
      = (vs.filter (fun v => !is_bitmap_set v)).length := by
    simp [array_blocks]
  have hjlt' : ((vs.take i).filter (fun v => !is_bitmap_set v)).length
      < (array_blocks vs).length := by
    rw [hblen]; exact hjlt
  have hblock : (array_blocks vs).getD
        ((vs.take i).filter (fun v => !is_bitmap_set v)).length []
      = vs.getD i [] := by
    simp only [array_blocks]
    exact hfj
  have hmark : ((vs.map is_bitmap_set).getD i false) = false := by
    rw [marks_getD vs i hi]; exact h
  have hL : ((array_blocks vs).map List.length).length = (array_blocks vs).length := by
    simp
  have hst : (startsFrom 0 ((array_blocks vs).map List.length)
        ++ [((array_blocks vs).map List.length).sum]).getD
          ((vs.take i).filter (fun v => !is_bitmap_set v)).length 0
      = (((array_blocks vs).map List.length).take
          ((vs.take i).filter (fun v => !is_bitmap_set v)).length).sum :=
    fullStarts_getD _ _ (by rw [hL]; exact le_of_lt hjlt')
  have hen : (startsFrom 0 ((array_blocks vs).map List.length)
        ++ [((array_blocks vs).map List.length).sum]).getD
          (((vs.take i).filter (fun v => !is_bitmap_set v)).length + 1) 0
      = (((array_blocks vs).map List.length).take
          ((vs.take i).filter (fun v => !is_bitmap_set v)).length).sum
        + (vs.getD i []).length := by
    rw [fullStarts_getD _ _ (by rw [hL]; omega)]
    rw [List.sum_take_succ _ _ (by rw [hL]; exact hjlt')]
    congr 1
    rw [List.getElem_map]
    rw [← List.getD_eq_getElem _ [] hjlt', hblock]
  have hsub : i - rank1 (vs.map is_bitmap_set) i
      = ((vs.take i).filter (fun v => !is_bitmap_set v)).length :=
    sub_rank1_map_marks vs i (le_of_lt hi)
  refine ⟨?_, hblock, hjlt'⟩
  rw [build_storage_eq]
  simp only [get_color_set_by_id, hmark, Bool.false_eq_true, if_false]
  rw [hsub, hst, hen]
  simp

/-- C8: after any sequence of `add_set` calls (each set nonempty, as
required by the `max_element` call in `add_set`) followed by
`prepare_for_queries`, both start arrays are strictly monotone increasing
and their final sentinel entry equals the length of the corresponding
concatenation. -/
theorem storage_starts_strictly_monotone (vs : List (List Nat))
    (hne : ∀ v ∈ vs, v ≠ []) :
    List.Sorted (· < ·) (build_storage vs).bitmap_starts
    ∧ (build_storage vs).bitmap_starts.getLast?
        = some (build_storage vs).bitmap_concat.length
    ∧ List.Sorted (· < ·) (build_storage vs).arrays_starts
    ∧ (build_storage vs).arrays_starts.getLast?
        = some (build_storage vs).arrays_concat.length := by
  rw [build_storage_eq]
  refine ⟨?_, ?_, ?_, ?_⟩
  · have hpos : ∀ l ∈ (bitmap_blocks vs).map List.length, 0 < l := by
      intro l hl
      obtain ⟨b, hb, rfl⟩ := List.mem_map.mp hl
      simp only [bitmap_blocks] at hb
      obtain ⟨w, _, rfl⟩ := List.mem_map.mp hb
      simp [block_of, length_set_to_bitmap]
    simpa using startsFrom_sorted ((bitmap_blocks vs).map List.length) 0 hpos
  · simp [List.getLast?_concat, List.length_flatten]
  · have hpos : ∀ l ∈ (array_blocks vs).map List.length, 0 < l := by
      intro l hl
      obtain ⟨b, hb, rfl⟩ := List.mem_map.mp hl
      simp only [array_blocks] at hb
      have hbvs : b ∈ vs := (List.mem_filter.mp hb).1
      have := hne b hbvs
      cases b with
      | nil => exact absurd rfl this
      | cons a t => simp
    simpa using startsFrom_sorted ((array_blocks vs).map List.length) 0 hpos
  · simp [List.getLast?_concat, List.length_flatten]

/-- Witness for `storage_starts_strictly_monotone` on the sets
{0,1,2} (bitmap) and {4} (array). -/
theorem storage_starts_strictly_monotone_witness :
    List.Sorted (· < ·) (build_storage [[0, 1, 2], [4]]).bitmap_starts
    ∧ (build_storage [[0, 1, 2], [4]]).bitmap_starts.getLast?
        = some (build_storage [[0, 1, 2], [4]]).bitmap_concat.length
    ∧ List.Sorted (· < ·) (build_storage [[0, 1, 2], [4]]).arrays_starts
    ∧ (build_storage [[0, 1, 2], [4]]).arrays_starts.getLast?
        = some (build_storage [[0, 1, 2], [4]]).arrays_concat.length :=
  storage_starts_strictly_monotone [[0, 1, 2], [4]] (by decide)

/-- C7: in a prepared storage, the view returned by `get_color_set_by_id i`
for a bitmap-marked id spans
`bitmap_concat[bitmap_starts[j] .. bitmap_starts[j+1])` with
`j = rank1(is_bitmap_marks, i)`, and for an array-marked id spans
`arrays_concat[arrays_starts[j] .. arrays_starts[j+1])` with
`j = i - rank1(is_bitmap_marks, i)`. -/
theorem get_color_set_by_id_spans (vs : List (List Nat)) (i : Nat)
    (hi : i < number_of_sets_stored (build_storage vs)) :
    ((build_storage vs).is_bitmap_marks.getD i false = true →
      get_color_set_by_id (build_storage vs) i
        = { data_ptr := .bitmapPtr (build_storage vs).bitmap_concat,
            start := (build_storage vs).bitmap_starts.getD
              (rank1 (build_storage vs).is_bitmap_marks i) 0,
            length := (build_storage vs).bitmap_starts.getD
                (rank1 (build_storage vs).is_bitmap_marks i + 1) 0
              - (build_storage vs).bitmap_starts.getD
                (rank1 (build_storage vs).is_bitmap_marks i) 0 })
    ∧ ((build_storage vs).is_bitmap_marks.getD i false = false →
      get_color_set_by_id (build_storage vs) i
        = { data_ptr := .arrayPtr (build_storage vs).arrays_concat,
            start := (build_storage vs).arrays_starts.getD
              (i - rank1 (build_storage vs).is_bitmap_marks i) 0,
            length := (build_storage vs).arrays_starts.getD
                (i - rank1 (build_storage vs).is_bitmap_marks i + 1) 0
              - (build_storage vs).arrays_starts.getD
                (i - rank1 (build_storage vs).is_bitmap_marks i) 0 }) := by
  constructor
  · intro h
    simp only [get_color_set_by_id, h, if_true]
  · intro h
    simp only [get_color_set_by_id, h, Bool.false_eq_true, if_false]

/-- Witness for `get_color_set_by_id_spans` at id 0 of the storage holding
{0,1,2} (bitmap) and {4} (array). -/
theorem get_color_set_by_id_spans_witness :
    ((build_storage [[0, 1, 2], [4]]).is_bitmap_marks.getD 0 false = true →
      get_color_set_by_id (build_storage [[0, 1, 2], [4]]) 0
        = { data_ptr := .bitmapPtr (build_storage [[0, 1, 2], [4]]).bitmap_concat,
            start := (build_storage [[0, 1, 2], [4]]).bitmap_starts.getD
              (rank1 (build_storage [[0, 1, 2], [4]]).is_bitmap_marks 0) 0,
            length := (build_storage [[0, 1, 2], [4]]).bitmap_starts.getD
                (rank1 (build_storage [[0, 1, 2], [4]]).is_bitmap_marks 0 + 1) 0
              - (build_storage [[0, 1, 2], [4]]).bitmap_starts.getD
                (rank1 (build_storage [[0, 1, 2], [4]]).is_bitmap_marks 0) 0 })
    ∧ ((build_storage [[0, 1, 2], [4]]).is_bitmap_marks.getD 0 false = false →
      get_color_set_by_id (build_storage [[0, 1, 2], [4]]) 0
        = { data_ptr := .arrayPtr (build_storage [[0, 1, 2], [4]]).arrays_concat,
            start := (build_storage [[0, 1, 2], [4]]).arrays_starts.getD
              (0 - rank1 (build_storage [[0, 1, 2], [4]]).is_bitmap_marks 0) 0,
            length := (build_storage [[0, 1, 2], [4]]).arrays_starts.getD
                (0 - rank1 (build_storage [[0, 1, 2], [4]]).is_bitmap_marks 0 + 1) 0
              - (build_storage [[0, 1, 2], [4]]).arrays_starts.getD
                (0 - rank1 (build_storage [[0, 1, 2], [4]]).is_bitmap_marks 0) 0 }) :=
  get_color_set_by_id_spans [[0, 1, 2], [4]] 0 (by decide)

/-- C1: for any sequence of sorted (nonempty) color vectors passed to
`add_set` followed by `prepare_for_queries`, for every id `i` and every
color `c`, the view returned by `get_color_set_by_id i` contains `c` iff
`c` is an element of the `i`-th vector. -/
theorem storage_contains_roundtrip (vs : List (List Nat))
    (hsorted : ∀ v ∈ vs, List.Sorted (· < ·) v)
    (hne : ∀ v ∈ vs, v ≠ [])
    (i : Nat) (hi : i < vs.length) (c : Nat) :
    colorset_contains (get_color_set_by_id (build_storage vs) i) c = true
      ↔ c ∈ vs.getD i [] := by
  cases hrep : is_bitmap_set (vs.getD i []) with
  | true =>
    obtain ⟨hview, hblock, hjlt⟩ := get_built_bitmap vs i hi hrep
    rw [hview]
    simp only [colorset_contains, colorset_is_bitmap, colorset_access_bitmap, if_true]
    by_cases hc : natMax (vs.getD i []) + 1 ≤ c
    · rw [if_pos hc]
      simp only [Bool.false_eq_true, false_iff]
      intro hmem
      have := le_natMax hmem
      omega
    · rw [if_neg hc]
      have hc' : c < natMax (vs.getD i []) + 1 := by omega
      rw [flatten_getD_slice (bitmap_blocks vs) _ hjlt false c
        (by rw [hblock]; simpa [block_of, length_set_to_bitmap] using hc')]
      rw [hblock, block_of, getD_set_to_bitmap _ _ _ hc']
      simp
  | false =>
    obtain ⟨hview, hblock, hjlt⟩ := get_built_array vs i hi hrep
    rw [hview]
    simp only [colorset_contains, colorset_is_bitmap, colorset_access_array,
      Bool.false_eq_true, if_false]
    rw [List.any_eq_true]
    constructor
    · rintro ⟨k, hk, hfk⟩
      rw [List.mem_range] at hk
      rw [flatten_getD_slice (array_blocks vs) _ hjlt 0 k
        (by rw [hblock]; exact hk)] at hfk
      rw [hblock] at hfk
      have hval : (vs.getD i []).getD k 0 = c := by simpa using hfk
      rw [List.getD_eq_getElem _ _ hk] at hval
      rw [← hval]
      exact List.getElem_mem hk
    · intro hmem
      obtain ⟨k, hk, hvk⟩ := List.getElem_of_mem hmem
      refine ⟨k, List.mem_range.mpr hk, ?_⟩
      rw [flatten_getD_slice (array_blocks vs) _ hjlt 0 k
        (by rw [hblock]; exact hk)]
      rw [hblock, List.getD_eq_getElem _ _ hk, hvk]
      simp

/-- Witness for `storage_contains_roundtrip`: in the storage holding
{0,1,2} and {4}, the view of set 1 contains 4 (which is in the vector). -/
theorem storage_contains_roundtrip_witness :
    (colorset_contains (get_color_set_by_id (build_storage [[0, 1, 2], [4]]) 1) 4 = true
      ↔ (4 : Nat) ∈ [[0, 1, 2], [4]].getD 1 []) :=
  storage_contains_roundtrip [[0, 1, 2], [4]]
    (by decide) (by decide) 1 (by decide) 4

/-! ### Intersection -/

/-- Two strictly sorted lists of naturals with the same members are
equal. -/
theorem sorted_eq_of_mem_iff {l₁ l₂ : List Nat} (h₁ : List.Sorted (· < ·) l₁)
    (h₂ : List.Sorted (· < ·) l₂) (h : ∀ x, x ∈ l₁ ↔ x ∈ l₂) : l₁ = l₂ :=
  List.eq_of_perm_of_sorted ((List.perm_ext_iff_of_nodup h₁.nodup h₂.nodup).mpr h)
    h₁ h₂

/-- The two-pointer merge of strictly sorted lists keeps exactly the
elements of the first list that also lie in the second. -/
theorem intersect_sorted_eq_filter : ∀ (l₁ l₂ : List Nat),
    List.Sorted (· < ·) l₁ → List.Sorted (· < ·) l₂ →
    intersect_sorted l₁ l₂ = l₁.filter (fun x => l₂.contains x) := by
  intro l₁
  induction l₁ with
  | nil =>
    intro l₂ h₁ h₂
    simp [intersect_sorted]
  | cons a as ih =>
    intro l₂ h₁
    induction l₂ with
    | nil =>
      intro h₂
      simp [intersect_sorted]
    | cons b bs ih₂ =>
      intro h₂
      obtain ⟨ha_lt, has⟩ := List.sorted_cons.mp h₁
      obtain ⟨hb_lt, hbs⟩ := List.sorted_cons.mp h₂
      by_cases hab : a = b
      · subst hab
        simp only [intersect_sorted, if_pos rfl]
        rw [ih bs has hbs]
        have hcongr : as.filter (fun x => bs.contains x)
            = as.filter (fun x => (a :: bs).contains x) := by
          apply List.filter_congr
          intro x hx
          have hax : a < x := ha_lt x hx
          simp [List.contains_cons, Nat.ne_of_gt hax]
        rw [hcongr, List.filter_cons]
        simp [List.contains_cons]
      · by_cases hlt : a < b
        · simp only [intersect_sorted, if_neg hab, if_pos hlt]
          rw [ih (b :: bs) has h₂]
          have hna : (b :: bs).contains a = false := by
            have : ¬ a ∈ b :: bs := by
              intro hmem
              rcases List.mem_cons.mp hmem with rfl | hmem
              · omega
              · exact absurd (hb_lt a hmem) (by omega)
            simpa using this
          rw [List.filter_cons, hna]
          simp
        · have hgt : b < a := by omega
          simp only [intersect_sorted, if_neg hab, if_neg hlt]
          rw [ih₂ hbs]
          apply List.filter_congr
          intro x hx
          have hbx : b < x := by
            rcases List.mem_cons.mp hx with rfl | hmem
            · omega
            · exact lt_trans hgt (ha_lt x hmem)
          simp [List.contains_cons, Nat.ne_of_gt hbx]

/-- The bitmap variant chosen by the vector constructor, explicitly. -/
theorem ofVector_bitmap (v : List Nat) (h : is_bitmap_set v = true) :
    Color_Set.ofVector v
      = { data_ptr := .bitmapPtr (set_to_bitmap v (natMax v)), start := 0,
          length := natMax v + 1 } := by
  simp only [Color_Set.ofVector]
  rw [show chooses_bitmap v.length (natMax v) = true from h]
  simp

/-- The array variant chosen by the vector constructor, explicitly. -/
theorem ofVector_array (v : List Nat) (h : is_bitmap_set v = false) :
    Color_Set.ofVector v
      = { data_ptr := .arrayPtr v, start := 0, length := v.length } := by
  simp only [Color_Set.ofVector]
  rw [show chooses_bitmap v.length (natMax v) = false from h]
  simp

/-- `get_colors_as_vector` on an owned bitmap color set lists the set
bits. -/
theorem get_colors_bitmap_lit (bits : List Bool) (n : Nat) (hn : n = bits.length) :
    colorset_get_colors_as_vector
        { data_ptr := .bitmapPtr bits, start := 0, length := n }
      = (List.range n).filter (fun k => bits.getD k false) := by
  subst hn
  simp [colorset_get_colors_as_vector, colorset_is_bitmap, colorset_access_bitmap]

/-- `get_colors_as_vector` on an owned array color set is the stored
vector. -/
theorem get_colors_array_lit (elems : List Nat) (n : Nat) (hn : n = elems.length) :
    colorset_get_colors_as_vector
        { data_ptr := .arrayPtr elems, start := 0, length := n } = elems := by
  subst hn
  simp only [colorset_get_colors_as_vector, colorset_is_bitmap,
    colorset_access_array, Bool.false_eq_true, if_false]
  apply List.ext_getElem (by simp)
  intro k h1 h2
  simp only [List.getElem_map, List.getElem_range, Nat.zero_add]
  rw [List.getD_eq_getElem _ _ h2]

/-- C3: for any two sorted nonempty color vectors, intersecting the
color set of the first with (a view of) the color set of the second and
reading the result back gives the sorted set intersection of the two
vectors, in every combination of bitmap and array representations (the
representation of each side is the one the constructor chooses for its
vector, and the proof covers all four dispatch branches). -/
theorem intersection_correct (vA vB : List Nat)
    (hA : List.Sorted (· < ·) vA) (hB : List.Sorted (· < ·) vB)
    (hAne : vA ≠ []) (hBne : vB ≠ []) :
    colorset_get_colors_as_vector
        ((Color_Set.ofVector vA).intersection (Color_Set.ofVector vB))
      = vA.filter (fun x => vB.contains x) := by
  cases hbA : is_bitmap_set vA with
  | true =>
    cases hbB : is_bitmap_set vB with
    | true =>
      -- bitmap vs bitmap
      rw [ofVector_bitmap vA hbA, ofVector_bitmap vB hbB]
      simp only [Color_Set.intersection, bitmap_vs_bitmap_intersection]
      rw [get_colors_bitmap_lit _ _ (by simp)]
      have hstep : (List.range (min (natMax vA + 1) (natMax vB + 1))).filter
            (fun k => ((List.range (min (natMax vA + 1) (natMax vB + 1))).map
              (fun i => (set_to_bitmap vA (natMax vA)).getD i false
                && (set_to_bitmap vB (natMax vB)).getD (0 + i) false)).getD k false)
          = (List.range (min (natMax vA + 1) (natMax vB + 1))).filter
            (fun k => vA.contains k && vB.contains k) := by
        apply List.filter_congr
        intro k hk
        rw [List.mem_range] at hk
        rw [List.getD_eq_getElem _ _ (by simpa using hk), List.getElem_map,
          List.getElem_range, Nat.zero_add,
          getD_set_to_bitmap _ _ _ (by omega), getD_set_to_bitmap _ _ _ (by omega)]
      rw [hstep]
      apply sorted_eq_of_mem_iff
      · exact (List.pairwise_lt_range _).filter _
      · exact hA.filter _
      · intro x
        simp only [List.mem_filter, List.mem_range]
        constructor
        · rintro ⟨hxn, hx⟩
          rcases Bool.and_eq_true_iff.mp hx with ⟨hxa, hxb⟩
          exact ⟨by simpa using hxa, hxb⟩
        · rintro ⟨hxa, hxb⟩
          have hxb' : x ∈ vB := by simpa using hxb
          have h1 := le_natMax hxa
          have h2 := le_natMax hxb'
          refine ⟨by omega, ?_⟩
          simp [hxa, hxb']
    | false =>
      -- bitmap vs array: the source converts itself to array
      rw [ofVector_bitmap vA hbA, ofVector_array vB hbB]
      simp only [Color_Set.intersection, array_vs_bitmap_intersection]
      rw [get_colors_array_lit _ _ rfl, List.take_length]
      have hres : vB.filter (fun x => decide (x < natMax vA + 1)
            && (set_to_bitmap vA (natMax vA)).getD (0 + x) false)
          = vB.filter (fun x => vA.contains x) := by
        apply List.filter_congr
        intro x hx
        rw [Nat.zero_add]
        by_cases hmem : x ∈ vA
        · have hle := le_natMax hmem
          rw [getD_set_to_bitmap _ _ _ (by omega)]
          simp [hmem, Nat.lt_succ_of_le hle]
        · have hxa : vA.contains x = false := by simpa using hmem
          by_cases hlt : x < natMax vA + 1
          · rw [getD_set_to_bitmap _ _ _ hlt]
            simp only [hxa, Bool.and_false]
          · rw [List.getD_eq_default _ _ (by rw [length_set_to_bitmap]; omega)]
            simp only [hxa, Bool.and_false]
      rw [hres]
      apply sorted_eq_of_mem_iff (hB.filter _) (hA.filter _)
      intro x
      simp only [List.mem_filter]
      constructor
      · rintro ⟨hxb, hxa⟩
        exact ⟨by simpa using hxa, by simpa using hxb⟩
      · rintro ⟨hxa, hxb⟩
        exact ⟨by simpa using hxb, by simpa using hxa⟩
  | false =>
    cases hbB : is_bitmap_set vB with
    | true =>
      -- array vs bitmap
      rw [ofVector_array vA hbA, ofVector_bitmap vB hbB]
      simp only [Color_Set.intersection, array_vs_bitmap_intersection]
      rw [get_colors_array_lit _ _ rfl, List.take_length]
      apply List.filter_congr
      intro x hx
      rw [Nat.zero_add]
      by_cases hmem : x ∈ vB
      · have hle := le_natMax hmem
        rw [getD_set_to_bitmap _ _ _ (by omega)]
        simp [hmem, Nat.lt_succ_of_le hle]
      · have hxb : vB.contains x = false := by simpa using hmem
        by_cases hlt : x < natMax vB + 1
        · rw [getD_set_to_bitmap _ _ _ hlt]
          simp only [hxb, Bool.and_false]
        · rw [List.getD_eq_default _ _ (by rw [length_set_to_bitmap]; omega)]
          simp only [hxb, Bool.and_false]
    | false =>
      -- array vs array
      rw [ofVector_array vA hbA, ofVector_array vB hbB]
      simp only [Color_Set.intersection, array_vs_array_intersection]
      rw [get_colors_array_lit _ _ rfl, List.drop_zero, List.take_length,
        List.take_length]
      exact intersect_sorted_eq_filter vA vB hA hB

/-- Witness for `intersection_correct` on the spec's sparse scenario
{4, 1534, 4003, 8903} ∩ {4, 2000, 4003, 5000} = {4, 4003}. -/
theorem intersection_correct_witness :
    colorset_get_colors_as_vector
        ((Color_Set.ofVector [4, 1534, 4003, 8903]).intersection
          (Color_Set.ofVector [4, 2000, 4003, 5000]))
      = [4, 1534, 4003, 8903].filter (fun x => [4, 2000, 4003, 5000].contains x) :=
  intersection_correct [4, 1534, 4003, 8903] [4, 2000, 4003, 5000]
    (by decide) (by decide) (by decide) (by decide)

end Themisto
